import Mathlib

/- Verification development for the cash-ledger browser client.
   The TypeScript source is shallowly embedded: JS strings are `List Char`,
   JS numbers carrying money amounts are `ℚ` (the spec fixes them to decimals
   with at most two fractional digits), optional JS values are `Option`. -/

set_option maxHeartbeats 1000000

set_option linter.unusedVariables false

/- ===== Data model, from src/types/cash (unnamed/part_000) ===== -/

inductive CashEntryType
  | IN
  | OUT
deriving DecidableEq

inductive CashPaymentMethod
  | CASH
  | PIX
  | CARD
deriving DecidableEq

/-- The entry form state (`CreateCashEntryDto` in the source): the draft of a
ledger entry being edited in `CashPage`. -/
structure EntryDraft where
  type : CashEntryType
  paymentMethod : CashPaymentMethod
  amount : ℚ
  description : List Char
  category : Option (List Char)
  entryDate : Option (List Char)
deriving DecidableEq

/-- The recognition-service response (`ReceiptScanResult`): every field is
independently optional. -/
structure ReceiptScanResult where
  type : Option CashEntryType
  paymentMethod : Option CashPaymentMethod
  amount : Option ℚ
  description : Option (List Char)
  category : Option (List Char)
  entryDate : Option (List Char)
  confidence : Option ℚ
deriving DecidableEq

/-- A persisted ledger entry (`CashEntry`). -/
structure CashEntry where
  id : List Char
  type : CashEntryType
  amount : ℚ
  description : List Char
  category : Option (List Char)
  paymentMethod : Option CashPaymentMethod
  createdAt : List Char
deriving DecidableEq

/- ===== Draft merge policy, from CashPage.tsx lines 261-269 =====
   `setForm((prev) => ({ ...prev, type: parsed.type ?? prev.type, ... }))`:
   the JS `??` operator keeps the previous value exactly when the parsed
   field is absent. -/

def mergeDraft (prev : EntryDraft) (parsed : ReceiptScanResult) : EntryDraft :=
  { type := parsed.type.getD prev.type
    paymentMethod := parsed.paymentMethod.getD prev.paymentMethod
    amount := parsed.amount.getD prev.amount
    description := parsed.description.getD prev.description
    category := parsed.category.or prev.category
    entryDate := parsed.entryDate.or prev.entryDate }

/-- A recognition result with every field absent. -/
def emptyScanResult : ReceiptScanResult :=
  ⟨none, none, none, none, none, none, none⟩

/- ===== Report exporter, from ReportsPage.tsx =====
   `escapeCsv` (lines 21-25) quotes a field when the regex `[",;\n]` matches,
   that is when the field contains a double quote, a comma, a semicolon or a
   newline; quoting doubles the internal double quotes. `handleDownloadCsv`
   (lines 141-163) joins the escaped fields of each row with a semicolon and
   the rows with a newline. -/

/-- The character class of the source regex `[",;\n]`. -/
def sourceSpecialChar (c : Char) : Bool :=
  c = '"' || c = ',' || c = ';' || c = '\n'

/-- The character class named by the specification: double quote, semicolon
or newline (no comma). -/
def claimSpecialChar (c : Char) : Bool :=
  c = '"' || c = ';' || c = '\n'

/-- The effect of `text.replaceAll(String.fromCharCode(34), two quotes)`:
every double quote in the field is doubled. -/
def doubleQuotes : List Char → List Char
  | [] => []
  | c :: cs => if c = '"' then '"' :: '"' :: doubleQuotes cs else c :: doubleQuotes cs

/-- `escapeCsv` from ReportsPage.tsx lines 21-25. -/
def escapeCsv (f : List Char) : List Char :=
  if f.any sourceSpecialChar then '"' :: doubleQuotes f ++ ['"'] else f

/-- `Array.prototype.join` with a one-character separator. -/
def joinSep (sep : Char) : List (List Char) → List Char
  | [] => []
  | [x] => x
  | x :: xs => x ++ sep :: joinSep sep xs

/-- One output row: the escaped cells joined with a semicolon. -/
def renderRow (cells : List (List Char)) : List Char :=
  joinSep ';' (cells.map escapeCsv)

/-- The whole document: the rendered rows joined with a newline, as in
`handleDownloadCsv`. -/
def renderCsv (rows : List (List (List Char))) : List Char :=
  joinSep '\n' (rows.map renderRow)

/-- The header row of `handleDownloadCsv`. -/
def csvHeaderCells : List (List Char) :=
  [String.data "Data/Hora", String.data "Tipo", String.data "Categoria",
   String.data "Descricao", String.data "Pagamento", String.data "Valor"]

/-- One data row of the export, as a tuple of the six already-formatted cell
strings `(formatted timestamp, type label, category-or-blank, description,
payment method, formatted amount)`. The browser-locale formatters
(`toLocaleString`, `toFixed`) are abstracted as the strings they produced. -/
structure ReportRow where
  dataHora : List Char
  tipo : List Char
  categoria : List Char
  descricao : List Char
  pagamento : List Char
  valor : List Char
deriving DecidableEq

def reportRowCells (r : ReportRow) : List (List Char) :=
  [r.dataHora, r.tipo, r.categoria, r.descricao, r.pagamento, r.valor]

/-- The grid of cell values written by `handleDownloadCsv`: the header
followed by one row per entry of the result set. -/
def csvGrid (rows : List ReportRow) : List (List (List Char)) :=
  csvHeaderCells :: rows.map reportRowCells

/-- The exported document for a result set. -/
def csvDocument (rows : List ReportRow) : List Char :=
  renderCsv (csvGrid rows)

/- A standard CSV reader for this dialect: fields separated by a semicolon,
rows by a newline, a field starting with a double quote is read up to the
closing quote with doubled quotes standing for one literal quote. -/

/-- Reads the body of a quoted field, after the opening quote. -/
def parseQuotedBody : List Char → List Char × List Char
  | [] => ([], [])
  | c :: rest =>
    if c = '"' then
      match rest with
      | [] => ([], [])
      | c2 :: rest2 =>
        if c2 = '"' then
          let p := parseQuotedBody rest2
          ('"' :: p.1, p.2)
        else ([], rest)
    else
      let p := parseQuotedBody rest
      (c :: p.1, p.2)

/-- Reads an unquoted field: everything up to a separator. -/
def parseUnquoted : List Char → List Char × List Char
  | [] => ([], [])
  | c :: rest =>
    if c = ';' ∨ c = '\n' then ([], c :: rest)
    else
      let p := parseUnquoted rest
      (c :: p.1, p.2)

/-- Reads one field, quoted or not. -/
def parseField : List Char → List Char × List Char
  | [] => ([], [])
  | c :: rest => if c = '"' then parseQuotedBody rest else parseUnquoted (c :: rest)

/- ===== Image file validation, CashPage.tsx lines 64-68 ===== -/

/-- Model of `String.prototype.toLowerCase` for the filename (the suffixes
checked are plain ASCII). -/
def lowerChars (s : List Char) : List Char := s.map Char.toLower

/-- The extension allow-list of the regex in `isLikelyImageFile`
(with the leading dot required by the regex, and `jpe?g` expanded). -/
def imageExtensions : List (List Char) :=
  [String.data ".png", String.data ".jpg", String.data ".jpeg",
   String.data ".webp", String.data ".bmp", String.data ".gif",
   String.data ".heic", String.data ".heif"]

/-- `isLikelyImageFile` from CashPage.tsx: media type starting with
a leading image mark, or lowercased filename matching the extension regex. -/
def isLikelyImageFile (mediaType fileName : List Char) : Bool :=
  (String.data "image/").isPrefixOf mediaType ||
    imageExtensions.any (fun e => e.isSuffixOf (lowerChars fileName))

/- ===== Image resizer, CashPage.tsx lines 43-62 =====
   The arithmetic of `fileToOptimizedDataUrl` is embedded over ℚ;
   `Math.round` is `round` (round half away from zero coincides with
   `round = floor (x + 1/2)` on the nonnegative values that occur here). -/

def resizeScale (w h : ℕ) : ℚ := min 1 (1600 / max (w : ℚ) (h : ℚ))

def resizeWidth (w h : ℕ) : ℤ := max 1 (round ((w : ℚ) * resizeScale w h))

def resizeHeight (w h : ℕ) : ℤ := max 1 (round ((h : ℚ) * resizeScale w h))

/- ===== Receipt digitization workflow, CashPage.tsx lines 233-290 ===== -/

/-- The declared media type and name of the selected file. -/
structure FileMeta where
  mediaType : List Char
  name : List Char

inductive ScanFailure
  | invalidFile
  | tooLarge
deriving DecidableEq

/-- What the workflow did: the resulting draft, whether the resize step and
the upload request happened, which validation failure (if any) was shown,
and the new selected date (set exactly when the result carries an
`entryDate`). -/
structure ScanOutcome where
  draft : EntryDraft
  resized : Bool
  uploaded : Bool
  failure : Option ScanFailure
  newSelectedDate : Option (List Char)
deriving DecidableEq

/-- The leading mark every encoded image payload must carry
(`base64Image.startsWith` check at CashPage.tsx line 245). -/
def dataImageMark : List Char := String.data "data:image/"

/-- The pre-upload checks and merge of `handleScanReceiptFile`: validate the
file, resize/encode (the encoded payload is the `payload` argument), check
the encoded-size cap, then upload and merge the response `resp` into the
draft `d`. -/
def runScanReceipt (f : FileMeta) (payload : List Char) (resp : ReceiptScanResult)
    (d : EntryDraft) : ScanOutcome :=
  if !(isLikelyImageFile f.mediaType f.name) then
    ⟨d, false, false, some .invalidFile, none⟩
  else if !(dataImageMark.isPrefixOf payload) then
    ⟨d, true, false, some .invalidFile, none⟩
  else if 9500000 < payload.length then
    ⟨d, true, false, some .tooLarge, none⟩
  else
    ⟨mergeDraft d resp, true, true, none, resp.entryDate⟩

/- ===== Failure handling of the authenticated calls =====
   Each `catch` block of CashPage.tsx / ReportsPage.tsx, as a function of the
   HTTP status and the `message` field of the response body. -/

/-- JS whitespace for `String.prototype.trim` (the characters relevant to
this client). -/
def isJsWhitespace (c : Char) : Bool :=
  c = ' ' || c = '\t' || c = '\n' || c = '\r'

/-- `String.prototype.trim`. -/
def trimChars (s : List Char) : List Char :=
  ((s.dropWhile isJsWhitespace).reverse.dropWhile isJsWhitespace).reverse

/-- `Array.prototype.join` with a string separator. -/
def joinWith (sep : List Char) : List (List Char) → List Char
  | [] => []
  | [x] => x
  | x :: xs => x ++ sep ++ joinWith sep xs

/-- The shape of `err.response?.data?.message`: absent, a string, or an
array of strings. -/
inductive ApiMessageField
  | absent
  | strMsg (s : List Char)
  | arrMsg (l : List (List Char))
deriving DecidableEq

/-- `extractApiMessage` from CashPage.tsx lines 93-99. -/
def extractApiMessage : ApiMessageField → Option (List Char)
  | .absent => none
  | .arrMsg l => some (joinWith (String.data ", ") l)
  | .strMsg s => if trimChars s ≠ [] then some s else none

/-- What a `catch` block does: end the session (logout + redirect to login)
or surface an error message. -/
inductive FailureAction
  | endSession
  | showError (msg : List Char)
deriving DecidableEq

def dashboardLoadErrorMsg : List Char :=
  String.data "Nao foi possivel carregar os dados do caixa. Verifique se o backend esta rodando."

def createEntryErrorMsg : List Char := String.data "Falha ao criar lancamento."

def deleteEntryErrorMsg : List Char := String.data "Falha ao excluir lancamento."

def reportLoadErrorMsg : List Char := String.data "Falha ao carregar relatorio."

def scanReceiptErrorMsg : List Char :=
  String.data "Falha ao ler comprovante. Tente novamente com uma foto mais nitida."

/-- `loadDashboard` catch block, CashPage.tsx lines 155-165. -/
def loadDashboardOnError (status : Nat) : FailureAction :=
  if status = 401 then .endSession else .showError dashboardLoadErrorMsg

/-- `handleCreateEntry` catch block, CashPage.tsx lines 205-213. -/
def handleCreateEntryOnError (status : Nat) (m : ApiMessageField) : FailureAction :=
  if status = 401 then .endSession
  else .showError ((extractApiMessage m).getD createEntryErrorMsg)

/-- `handleDeleteEntry` catch block, CashPage.tsx lines 224-230. -/
def handleDeleteEntryOnError (status : Nat) : FailureAction :=
  if status = 401 then .endSession else .showError deleteEntryErrorMsg

/-- `loadReport` catch block, ReportsPage.tsx lines 79-89. -/
def loadReportOnError (status : Nat) (m : ApiMessageField) : FailureAction :=
  if status = 401 then .endSession
  else
    .showError (match m with
      | .arrMsg l => joinWith (String.data ", ") l
      | _ => reportLoadErrorMsg)

/-- `handleScanReceiptFile` catch block, CashPage.tsx lines 279-283. The
caught error carries the response status, but the block never inspects it:
every failure, whatever its status, only sets an error message. -/
def handleScanReceiptOnError (status : Nat) (m : ApiMessageField) : FailureAction :=
  .showError ((extractApiMessage m).getD scanReceiptErrorMsg)

/- ===== Query construction, ReportsPage.tsx lines 61-90 and
   CashPage.tsx lines 133-151 ===== -/

inductive TypeFilterValue
  | ALL
  | IN
  | OUT
deriving DecidableEq

inductive PaymentFilterValue
  | ALL
  | CASH
  | PIX
  | CARD
deriving DecidableEq

/-- The fixed parameter names of the list request. -/
inductive QueryKey
  | date
  | type
  | paymentMethod
  | dateFrom
  | dateTo
  | category
  | description
  | minAmount
  | maxAmount
deriving DecidableEq

def typeFilterText : TypeFilterValue → List Char
  | .ALL => String.data "ALL"
  | .IN => String.data "IN"
  | .OUT => String.data "OUT"

def paymentFilterText : PaymentFilterValue → List Char
  | .ALL => String.data "ALL"
  | .CASH => String.data "CASH"
  | .PIX => String.data "PIX"
  | .CARD => String.data "CARD"

/-- The filter state of the report view. -/
structure ReportFilterState where
  typeFilter : TypeFilterValue
  dateFrom : List Char
  dateTo : List Char
  category : List Char
  description : List Char
  minAmount : List Char
  maxAmount : List Char

/-- The filter state of the live-ledger (dashboard) view. -/
structure DashboardFilterState where
  selectedDate : List Char
  typeFilter : TypeFilterValue
  paymentFilter : PaymentFilterValue

/-- A conditional object-spread `...(cond ? entry : empty)`. -/
def paramIf (c : Bool) (k : QueryKey) (v : List Char) : List (QueryKey × List Char) :=
  if c then [(k, v)] else []

/-- The `params` object built by `loadReport`. -/
def reportParams (s : ReportFilterState) : List (QueryKey × List Char) :=
  paramIf (s.typeFilter ≠ .ALL) .type (typeFilterText s.typeFilter) ++
  paramIf (!s.dateFrom.isEmpty) .dateFrom s.dateFrom ++
  paramIf (!s.dateTo.isEmpty) .dateTo s.dateTo ++
  paramIf (!(trimChars s.category).isEmpty) .category (trimChars s.category) ++
  paramIf (!(trimChars s.description).isEmpty) .description (trimChars s.description) ++
  paramIf (!s.minAmount.isEmpty) .minAmount s.minAmount ++
  paramIf (!s.maxAmount.isEmpty) .maxAmount s.maxAmount

/-- The `params` object built by `loadDashboard` for the list request:
`date` always, the two predicates only when not ALL. -/
def dashboardParams (s : DashboardFilterState) : List (QueryKey × List Char) :=
  [(QueryKey.date, s.selectedDate)] ++
  paramIf (s.typeFilter ≠ .ALL) .type (typeFilterText s.typeFilter) ++
  paramIf (s.paymentFilter ≠ .ALL) .paymentMethod (paymentFilterText s.paymentFilter)

/-- Whether the request carries a parameter named `k`. -/
def hasParam (ps : List (QueryKey × List Char)) (k : QueryKey) : Bool :=
  ps.any (fun kv => kv.1 = k)

/- ===== Report totals, ReportsPage.tsx lines 100-114 ===== -/

/-- The reducer of the `items.reduce` call. -/
def totalsStep (acc : ℚ × ℚ) (item : CashEntry) : ℚ × ℚ :=
  if item.type = .IN then (acc.1 + item.amount, acc.2) else (acc.1, acc.2 + item.amount)

/-- `totals`: a single left-to-right fold over the result set. -/
def reportTotals (items : List CashEntry) : ℚ × ℚ :=
  items.foldl totalsStep (0, 0)

/-- `net = totals.totalIn - totals.totalOut`. -/
def reportNet (items : List CashEntry) : ℚ :=
  (reportTotals items).1 - (reportTotals items).2

/-- The sum of the amounts of the entries of type IN. -/
def sumInAmounts (items : List CashEntry) : ℚ :=
  ((items.filter fun e => e.type = .IN).map fun e => e.amount).sum

/-- The sum of the amounts of the remaining entries. -/
def sumOutAmounts (items : List CashEntry) : ℚ :=
  ((items.filter fun e => ¬(e.type = .IN)).map fun e => e.amount).sum

/- ===== Session store reads, src/auth.ts lines 38-48 ===== -/

structure AuthUser where
  id : List Char
  email : List Char
  name : List Char
  createdAt : List Char
deriving DecidableEq

/-- `getCurrentUser`: `stored` is the value under the user key of the
session store (`none` when nothing is stored); `parseUser` models
`JSON.parse` composed with the cast to `AuthUser` (`none` exactly on the
strings on which `JSON.parse` throws). Returns the read result and the
storage contents afterwards. The source first runs the falsy guard
`if (!raw) return null`, which also fires on a stored empty string, so an
empty stored value is returned as `none` with storage untouched; only a
non-empty unparsable value reaches the catch that removes the record
(`localStorage.removeItem`); a parsed value is returned with storage
untouched. -/
def getCurrentUserModel (parseUser : List Char → Option AuthUser)
    (stored : Option (List Char)) : Option AuthUser × Option (List Char) :=
  match stored with
  | none => (none, none)
  | some raw =>
    if raw.isEmpty then (none, some raw)
    else
      match parseUser raw with
      | some u => (some u, some raw)
      | none => (none, none)

/- ===== Concrete inputs used by the witness theorems ===== -/

def witnessDraft : EntryDraft :=
  ⟨.IN, .PIX, 0, String.data "almoco", some (String.data "Vendas"),
   some (String.data "2024-03-01")⟩

def witnessScanResult : ReceiptScanResult :=
  ⟨some .OUT, none, some (241/2), none, none, some (String.data "2024-03-02"),
   some (73/100)⟩

def witnessImageFile : FileMeta :=
  ⟨String.data "image/jpeg", String.data "receipt.JPG"⟩

def witnessPdfFile : FileMeta :=
  ⟨String.data "application/pdf", String.data "doc.pdf"⟩

/-- An encoded payload one character over the cap. -/
def witnessBigPayload : List Char :=
  dataImageMark ++ List.replicate 9499990 'a'

def witnessEntryIn : CashEntry :=
  ⟨String.data "id1", .IN, 459/10, String.data "venda", none, some .PIX,
   String.data "2024-03-01T10:00:00Z"⟩

def witnessEntryOut : CashEntry :=
  ⟨String.data "id2", .OUT, 30, String.data "fornecedor", none, some .CASH,
   String.data "2024-03-01T11:00:00Z"⟩

/-- Reads the whole document into rows of fields. -/
def parseRows (input : List Char) : List (List (List Char)) :=
  match hp : parseField input with
  | (f, ';' :: rest) =>
    match parseRows rest with
    | [] => [[f]]
    | r :: rs => (f :: r) :: rs
  | (f, '\n' :: rest) => [f] :: parseRows rest
  | (f, _) => [[f]]
termination_by input.length
decreasing_by
  all_goals
    have hq : ∀ l : List Char, (parseQuotedBody l).2.length ≤ l.length := by
      intro l
      induction l using parseQuotedBody.induct with
      | case1 => simp [parseQuotedBody]
      | case2 => simp [parseQuotedBody]
      | case3 rest2 ih =>
        rw [parseQuotedBody.eq_def]
        simp only [if_pos rfl]
        simp
        omega
      | case4 c2 rest2 h =>
        rw [parseQuotedBody.eq_def]
        simp [h]
      | case5 c2 rest2 h ih =>
        rw [parseQuotedBody.eq_def]
        simp [h]
        omega
    have hu : ∀ l : List Char, (parseUnquoted l).2.length ≤ l.length := by
      intro l
      induction l using parseUnquoted.induct with
      | case1 => simp [parseUnquoted]
      | case2 c2 rest2 h => simp [parseUnquoted, h]
      | case3 c2 rest2 h ih =>
        rw [parseUnquoted.eq_def]
        simp [h]
        omega
    have key : ∀ l : List Char, (parseField l).2.length ≤ l.length := by
      intro l
      cases l with
      | nil => simp [parseField]
      | cons c rest =>
        by_cases h : c = '"'
        · simpa [parseField, h] using (hq rest).trans (by omega)
        · simpa [parseField, h] using hu (c :: rest)
    have key2 := key input
    rw [hp] at key2
    simp at key2
    omega

/- ===================== Claim theorems ===================== -/

/-- C2: the draft merge applied after a recognition call is a field-level
overwrite: for each of the six fields independently, a defined recognition
value overwrites the draft's field, an absent one preserves the draft's
value, and merging the all-absent result leaves the draft unchanged. -/
theorem merge_is_field_level_overwrite (d : EntryDraft) (r : ReceiptScanResult) :
    (mergeDraft d r).type = (match r.type with | some v => v | none => d.type) ∧
    (mergeDraft d r).paymentMethod =
      (match r.paymentMethod with | some v => v | none => d.paymentMethod) ∧
    (mergeDraft d r).amount = (match r.amount with | some v => v | none => d.amount) ∧
    (mergeDraft d r).description =
      (match r.description with | some v => v | none => d.description) ∧
    (mergeDraft d r).category =
      (match r.category with | some v => some v | none => d.category) ∧
    (mergeDraft d r).entryDate =
      (match r.entryDate with | some v => some v | none => d.entryDate) ∧
    mergeDraft d emptyScanResult = d := by
  refine ⟨?_, ?_, ?_, ?_, ?_, ?_, rfl⟩
  · cases h : r.type <;> simp [mergeDraft, h]
  · cases h : r.paymentMethod <;> simp [mergeDraft, h]
  · cases h : r.amount <;> simp [mergeDraft, h]
  · cases h : r.description <;> simp [mergeDraft, h]
  · cases h : r.category <;> simp [mergeDraft, h, Option.or]
  · cases h : r.entryDate <;> simp [mergeDraft, h, Option.or]

/-- C1: the code diverges from the claim. A 401 response caught in
`handleScanReceiptFile` only produces the generic digitization error message
(the catch block never inspects the status), while each of the four other
authenticated calls ends the session on a 401. -/
theorem scanReceipt_401_divergence :
    handleScanReceiptOnError 401 ApiMessageField.absent
        = FailureAction.showError scanReceiptErrorMsg ∧
    handleScanReceiptOnError 401 ApiMessageField.absent ≠ FailureAction.endSession ∧
    loadDashboardOnError 401 = FailureAction.endSession ∧
    handleCreateEntryOnError 401 ApiMessageField.absent = FailureAction.endSession ∧
    handleDeleteEntryOnError 401 = FailureAction.endSession ∧
    loadReportOnError 401 ApiMessageField.absent = FailureAction.endSession := by
  refine ⟨rfl, ?_, rfl, rfl, rfl, rfl⟩
  simp [handleScanReceiptOnError, extractApiMessage]

/-- C10 counterexample: a stored empty string is not valid JSON
(`JSON.parse` throws on it), yet the read takes the falsy early return:
it yields `none` but leaves the record in place, so the claimed
removal-for-every-invalid-value fails at this input. The concrete parse
function is faithful to `JSON.parse` at the empty string. -/
theorem getCurrentUser_empty_string_counterexample :
    getCurrentUserModel (fun _ : List Char => (none : Option AuthUser)) (some [])
      = (none, some []) ∧
    getCurrentUserModel (fun _ : List Char => (none : Option AuthUser)) (some [])
      ≠ (none, none) := by
  constructor <;> simp [getCurrentUserModel]

/-- C10 (amended): reading the current user never throws (the model is a
total function); with nothing stored the read yields `none` and storage
stays empty; a stored non-empty value that does not parse yields `none` and
is removed; a stored empty string (not valid JSON, but falsy) yields `none`
via the early return with storage untouched; in every such case a
subsequent read also yields `none`. -/
theorem getCurrentUser_selfheals (parseUser : List Char → Option AuthUser)
    (raw : List Char) (h : parseUser raw = none) :
    getCurrentUserModel parseUser none = (none, none) ∧
    (raw ≠ [] → getCurrentUserModel parseUser (some raw) = (none, none)) ∧
    (raw = [] → getCurrentUserModel parseUser (some raw) = (none, some raw)) ∧
    (getCurrentUserModel parseUser (getCurrentUserModel parseUser (some raw)).2).1
      = none := by
  refine ⟨rfl, ?_, ?_, ?_⟩
  · intro hne
    cases raw with
    | nil => exact absurd rfl hne
    | cons c cs => simp [getCurrentUserModel, h]
  · intro he
    subst he
    simp [getCurrentUserModel]
  · cases raw with
    | nil => simp [getCurrentUserModel]
    | cons c cs => simp [getCurrentUserModel, h]

theorem getCurrentUser_selfheals_witness :
    (fun _ : List Char => (none : Option AuthUser)) (String.data "not json") = none ∧
    String.data "not json" ≠ [] ∧
    getCurrentUserModel (fun _ => none) (some (String.data "not json")) = (none, none) :=
  ⟨rfl, by decide,
    (getCurrentUser_selfheals (fun _ => none) (String.data "not json") rfl).2.1 (by decide)⟩

/-- C6: with a validated image file and a payload carrying the encoded-image
mark, a payload longer than 9500000 characters is rejected with the size
error before the upload step (no request is issued and the draft is left
unchanged), while a payload of exactly 9500000 characters passes this check
and is uploaded. -/
theorem scan_payload_size_cap (f : FileMeta) (payload : List Char)
    (r : ReceiptScanResult) (d : EntryDraft)
    (himg : isLikelyImageFile f.mediaType f.name = true)
    (hmark : dataImageMark.isPrefixOf payload = true) :
    (9500000 < payload.length →
      runScanReceipt f payload r d
        = ⟨d, true, false, some ScanFailure.tooLarge, none⟩) ∧
    (payload.length = 9500000 →
      runScanReceipt f payload r d
        = ⟨mergeDraft d r, true, true, none, r.entryDate⟩) := by
  constructor
  · intro hlen
    simp [runScanReceipt, himg, hmark, hlen]
  · intro hlen
    simp [runScanReceipt, himg, hmark, hlen]

theorem scan_payload_size_cap_witness :
    isLikelyImageFile witnessImageFile.mediaType witnessImageFile.name = true ∧
    dataImageMark.isPrefixOf witnessBigPayload = true ∧
    9500000 < witnessBigPayload.length ∧
    runScanReceipt witnessImageFile witnessBigPayload witnessScanResult witnessDraft
      = ⟨witnessDraft, true, false, some ScanFailure.tooLarge, none⟩ := by
  have himg : isLikelyImageFile witnessImageFile.mediaType witnessImageFile.name
      = true := by decide
  have hmark : dataImageMark.isPrefixOf witnessBigPayload = true :=
    List.isPrefixOf_iff_prefix.mpr ⟨List.replicate 9499990 'a', rfl⟩
  have hlen : 9500000 < witnessBigPayload.length := by
    have h1 : witnessBigPayload.length = dataImageMark.length + 9499990 := by
      unfold witnessBigPayload
      rw [List.length_append, List.length_replicate]
    have h2 : dataImageMark.length = 11 := by decide
    omega
  exact ⟨himg, hmark, hlen,
    (scan_payload_size_cap witnessImageFile witnessBigPayload witnessScanResult
      witnessDraft himg hmark).1 hlen⟩

/-- C9: a file is accepted by the validation exactly when its declared media
type starts with the image mark or its lowercased name ends with one of the
eight allowed extensions; every other file is rejected with the invalid-file
error before the resize and upload steps, with the draft unchanged. -/
theorem image_validation_iff (f : FileMeta) (payload : List Char)
    (r : ReceiptScanResult) (d : EntryDraft) :
    (isLikelyImageFile f.mediaType f.name = true ↔
      (String.data "image/" <+: f.mediaType ∨
        ∃ e ∈ imageExtensions, e <:+ lowerChars f.name)) ∧
    (isLikelyImageFile f.mediaType f.name = false →
      runScanReceipt f payload r d
        = ⟨d, false, false, some ScanFailure.invalidFile, none⟩) := by
  constructor
  · simp [isLikelyImageFile, List.isPrefixOf_iff_prefix, List.isSuffixOf_iff_suffix,
      List.any_eq_true]
  · intro hno
    simp [runScanReceipt, hno]

theorem image_validation_iff_witness :
    isLikelyImageFile witnessPdfFile.mediaType witnessPdfFile.name = false ∧
    runScanReceipt witnessPdfFile (String.data "x") witnessScanResult witnessDraft
      = ⟨witnessDraft, false, false, some ScanFailure.invalidFile, none⟩ := by
  have hno : isLikelyImageFile witnessPdfFile.mediaType witnessPdfFile.name
      = false := by decide
  exact ⟨hno,
    (image_validation_iff witnessPdfFile (String.data "x") witnessScanResult
      witnessDraft).2 hno⟩

/-- C5: for input dimensions at least 1 and the fixed cap 1600, the resize
computes `scale = min 1 (1600 / max w h)` and output dimensions
`max 1 (round (w * scale))` by `max 1 (round (h * scale))`; hence the larger
output dimension is at most 1600, both outputs are at least 1, and when the
input already fits within the cap the output equals the input (no
upscaling). -/
theorem resize_dimensions (w h : ℕ) (hw : 1 ≤ w) (hh : 1 ≤ h) :
    max (resizeWidth w h) (resizeHeight w h) ≤ 1600 ∧
    1 ≤ resizeWidth w h ∧ 1 ≤ resizeHeight w h ∧
    (max w h ≤ 1600 → resizeWidth w h = w ∧ resizeHeight w h = h) := by
  have hmq : max (w : ℚ) (h : ℚ) = ((max w h : ℕ) : ℚ) := by
    rw [Nat.cast_max]
  have hm1 : 1 ≤ max w h := le_trans hw (le_max_left w h)
  have hm0q : (0 : ℚ) < ((max w h : ℕ) : ℚ) := by exact_mod_cast hm1
  have round_le_cap : ∀ x : ℚ, x ≤ 1600 → round x ≤ 1600 := by
    intro x hx
    have h2 : ((round x : ℤ) : ℚ) ≤ x + 1 / 2 := round_le_add_half x
    have h3 : ((round x : ℤ) : ℚ) < ((1601 : ℤ) : ℚ) := by push_cast; linarith
    have h4 : round x < 1601 := by exact_mod_cast h3
    omega
  by_cases hc : max w h ≤ 1600
  · have hscale : resizeScale w h = 1 := by
      unfold resizeScale
      rw [hmq]
      apply min_eq_left
      rw [le_div_iff₀ hm0q, one_mul]
      exact_mod_cast hc
    have hrw : resizeWidth w h = w := by
      unfold resizeWidth
      rw [hscale, mul_one, round_natCast]
      exact max_eq_right (by exact_mod_cast hw)
    have hrh : resizeHeight w h = h := by
      unfold resizeHeight
      rw [hscale, mul_one, round_natCast]
      exact max_eq_right (by exact_mod_cast hh)
    refine ⟨?_, ?_, ?_, fun _ => ⟨hrw, hrh⟩⟩
    · rw [hrw, hrh]
      have hw16 : w ≤ 1600 := le_trans (le_max_left w h) hc
      have hh16 : h ≤ 1600 := le_trans (le_max_right w h) hc
      exact max_le (by exact_mod_cast hw16) (by exact_mod_cast hh16)
    · rw [hrw]; exact_mod_cast hw
    · rw [hrh]; exact_mod_cast hh
  · push_neg at hc
    have hscale : resizeScale w h = 1600 / ((max w h : ℕ) : ℚ) := by
      unfold resizeScale
      rw [hmq]
      apply min_eq_right
      rw [div_le_one hm0q]
      exact_mod_cast le_of_lt hc
    have hbound : ∀ n : ℕ, n ≤ max w h →
        (n : ℚ) * (1600 / ((max w h : ℕ) : ℚ)) ≤ 1600 := by
      intro n hn
      have hnq : (n : ℚ) ≤ ((max w h : ℕ) : ℚ) := by exact_mod_cast hn
      have step : (n : ℚ) * (1600 / ((max w h : ℕ) : ℚ)) ≤
          ((max w h : ℕ) : ℚ) * (1600 / ((max w h : ℕ) : ℚ)) := by
        apply mul_le_mul_of_nonneg_right hnq
        positivity
      have heq : ((max w h : ℕ) : ℚ) * (1600 / ((max w h : ℕ) : ℚ)) = 1600 := by
        field_simp
      linarith
    have hwle : resizeWidth w h ≤ 1600 := by
      unfold resizeWidth
      rw [hscale]
      exact max_le (by norm_num) (round_le_cap _ (hbound w (le_max_left w h)))
    have hhle : resizeHeight w h ≤ 1600 := by
      unfold resizeHeight
      rw [hscale]
      exact max_le (by norm_num) (round_le_cap _ (hbound h (le_max_right w h)))
    refine ⟨max_le hwle hhle, le_max_left 1 _, le_max_left 1 _, fun hcc => ?_⟩
    omega

theorem resize_dimensions_witness :
    ((1 : ℕ) ≤ 800 ∧ (1 : ℕ) ≤ 600 ∧ max 800 600 ≤ 1600) ∧
    resizeWidth 800 600 = 800 ∧ resizeHeight 800 600 = 600 :=
  ⟨⟨by decide, by decide, by decide⟩,
    (resize_dimensions 800 600 (by decide) (by decide)).2.2.2 (by decide)⟩

theorem foldl_totalsStep_eq (l : List CashEntry) :
    ∀ a b : ℚ, l.foldl totalsStep (a, b) = (a + sumInAmounts l, b + sumOutAmounts l) := by
  induction l with
  | nil => intro a b; simp [sumInAmounts, sumOutAmounts]
  | cons e l ih =>
    intro a b
    by_cases he : e.type = CashEntryType.IN
    · simp [totalsStep, he, ih, sumInAmounts, sumOutAmounts, add_assoc]
    · simp [totalsStep, he, ih, sumInAmounts, sumOutAmounts, add_assoc]

/-- C7: the report totals are computed by the single left fold of the source:
`totalIn` is the sum of the amounts of the IN entries, `totalOut` the sum of
the amounts of the remaining entries, and `net` their difference; for any
permutation of the result set all three are unchanged. -/
theorem totals_fold_and_perm (l₁ l₂ : List CashEntry) (hp : l₁.Perm l₂) :
    reportTotals l₁ = (sumInAmounts l₁, sumOutAmounts l₁) ∧
    reportNet l₁ = sumInAmounts l₁ - sumOutAmounts l₁ ∧
    reportTotals l₂ = reportTotals l₁ ∧
    reportNet l₂ = reportNet l₁ := by
  have key : ∀ l : List CashEntry, reportTotals l = (sumInAmounts l, sumOutAmounts l) := by
    intro l
    have h := foldl_totalsStep_eq l 0 0
    simpa [reportTotals] using h
  have hin : sumInAmounts l₂ = sumInAmounts l₁ :=
    (List.Perm.sum_eq ((hp.filter _).map _)).symm
  have hout : sumOutAmounts l₂ = sumOutAmounts l₁ :=
    (List.Perm.sum_eq ((hp.filter _).map _)).symm
  have htot : reportTotals l₂ = reportTotals l₁ := by
    rw [key l₁, key l₂, hin, hout]
  refine ⟨key l₁, ?_, htot, by rw [reportNet, reportNet, htot]⟩
  rw [reportNet, key l₁]

theorem totals_fold_and_perm_witness :
    ([witnessEntryIn, witnessEntryOut] : List CashEntry).Perm
      [witnessEntryOut, witnessEntryIn] ∧
    reportTotals [witnessEntryIn, witnessEntryOut]
      = (sumInAmounts [witnessEntryIn, witnessEntryOut],
         sumOutAmounts [witnessEntryIn, witnessEntryOut]) ∧
    reportNet [witnessEntryOut, witnessEntryIn]
      = reportNet [witnessEntryIn, witnessEntryOut] := by
  have hp : ([witnessEntryIn, witnessEntryOut] : List CashEntry).Perm
      [witnessEntryOut, witnessEntryIn] := List.Perm.swap _ _ _
  exact ⟨hp, (totals_fold_and_perm _ _ hp).1, (totals_fold_and_perm _ _ hp).2.2.2⟩

theorem hasParam_append (a b : List (QueryKey × List Char)) (k : QueryKey) :
    hasParam (a ++ b) k = (hasParam a k || hasParam b k) := by
  simp [hasParam, List.any_append]

theorem hasParam_cons (kv : QueryKey × List Char) (rest : List (QueryKey × List Char))
    (k : QueryKey) : hasParam (kv :: rest) k = (decide (kv.1 = k) || hasParam rest k) := by
  simp [hasParam]

theorem hasParam_paramIf (c : Bool) (k k' : QueryKey) (v : List Char) :
    hasParam (paramIf c k v) k' = (c && decide (k = k')) := by
  cases c <;> simp [paramIf, hasParam]

theorem all_paramIf (p : QueryKey × List Char → Bool) (c : Bool) (k : QueryKey)
    (v : List Char) : (paramIf c k v).all p = (!c || p (k, v)) := by
  cases c <;> simp [paramIf]

/-- C8: the remote list requests omit empty or absent predicates entirely:
a parameter is present exactly when its predicate is set (`type` and
`paymentMethod` only when not ALL, `dateFrom`/`dateTo`/`minAmount`/
`maxAmount` only when non-empty, `category`/`description` only when
non-blank after trimming), and no predicate parameter ever carries an empty
value (in the dashboard request only the unconditional `date` parameter is
exempted from the check). -/
theorem query_construction_omits_empty (s : ReportFilterState)
    (d : DashboardFilterState) :
    (hasParam (reportParams s) QueryKey.type = true
      ↔ s.typeFilter ≠ TypeFilterValue.ALL) ∧
    (hasParam (reportParams s) QueryKey.dateFrom = true ↔ s.dateFrom ≠ []) ∧
    (hasParam (reportParams s) QueryKey.dateTo = true ↔ s.dateTo ≠ []) ∧
    (hasParam (reportParams s) QueryKey.category = true
      ↔ trimChars s.category ≠ []) ∧
    (hasParam (reportParams s) QueryKey.description = true
      ↔ trimChars s.description ≠ []) ∧
    (hasParam (reportParams s) QueryKey.minAmount = true ↔ s.minAmount ≠ []) ∧
    (hasParam (reportParams s) QueryKey.maxAmount = true ↔ s.maxAmount ≠ []) ∧
    (reportParams s).all (fun kv => !kv.2.isEmpty) = true ∧
    (hasParam (dashboardParams d) QueryKey.type = true
      ↔ d.typeFilter ≠ TypeFilterValue.ALL) ∧
    (hasParam (dashboardParams d) QueryKey.paymentMethod = true
      ↔ d.paymentFilter ≠ PaymentFilterValue.ALL) ∧
    (dashboardParams d).all
      (fun kv => decide (kv.1 = QueryKey.date) || !kv.2.isEmpty) = true := by
  obtain ⟨tf, df, dt, cat, desc, mn, mx⟩ := s
  obtain ⟨sd, dtf, dpf⟩ := d
  refine ⟨?_, ?_, ?_, ?_, ?_, ?_, ?_, ?_, ?_, ?_, ?_⟩
  · simp [reportParams, hasParam_append, hasParam_paramIf, List.isEmpty_iff]
  · simp [reportParams, hasParam_append, hasParam_paramIf, List.isEmpty_iff]
  · simp [reportParams, hasParam_append, hasParam_paramIf, List.isEmpty_iff]
  · simp [reportParams, hasParam_append, hasParam_paramIf, List.isEmpty_iff]
  · simp [reportParams, hasParam_append, hasParam_paramIf, List.isEmpty_iff]
  · simp [reportParams, hasParam_append, hasParam_paramIf, List.isEmpty_iff]
  · simp [reportParams, hasParam_append, hasParam_paramIf, List.isEmpty_iff]
  · cases tf <;>
      simp [reportParams, List.all_append, all_paramIf, typeFilterText,
        Bool.or_not_self]
  · simp [dashboardParams, hasParam_cons, hasParam_append, hasParam_paramIf,
      List.isEmpty_iff]
  · simp [dashboardParams, hasParam_cons, hasParam_append, hasParam_paramIf,
      List.isEmpty_iff]
  · cases dtf <;> cases dpf <;>
      simp [dashboardParams, List.all_append, all_paramIf, typeFilterText,
        paymentFilterText]

theorem doubleQuotes_length_ge (f : List Char) :
    f.length ≤ (doubleQuotes f).length := by
  induction f with
  | nil => simp [doubleQuotes]
  | cons c cs ih =>
    by_cases h : c = '"' <;> simp [doubleQuotes, h] <;> omega

/-- C3 counterexample: the formatted amount field 1,50 contains no double
quote, semicolon or newline, yet `escapeCsv` quotes it: the source's
character class also fires on a comma. -/
theorem escapeCsv_claim_counterexample :
    (String.data "1,50").any claimSpecialChar = false ∧
    escapeCsv (String.data "1,50") ≠ String.data "1,50" := by
  decide

/-- C3 (amended): a field is quoted, with its internal double quotes
doubled, exactly when it contains a double quote, a comma, a semicolon or a
newline; a field containing none of these four characters is emitted
unchanged. -/
theorem escapeCsv_quoting (f : List Char) :
    escapeCsv f = (if ∃ c ∈ f, c = '"' ∨ c = ',' ∨ c = ';' ∨ c = '\n'
      then '"' :: doubleQuotes f ++ ['"'] else f) ∧
    (escapeCsv f ≠ f ↔ ∃ c ∈ f, c = '"' ∨ c = ',' ∨ c = ';' ∨ c = '\n') := by
  have hiff : f.any sourceSpecialChar = true ↔
      ∃ c ∈ f, c = '"' ∨ c = ',' ∨ c = ';' ∨ c = '\n' := by
    simp only [List.any_eq_true, sourceSpecialChar, Bool.or_eq_true, decide_eq_true_eq,
      or_assoc]
  constructor
  · by_cases hb : f.any sourceSpecialChar
    · rw [escapeCsv, if_pos hb, if_pos (hiff.mp hb)]
    · rw [escapeCsv, if_neg hb, if_neg fun hx => hb (hiff.mpr hx)]
  · constructor
    · intro hne
      by_contra hx
      have hb : ¬(f.any sourceSpecialChar = true) := fun hb => hx (hiff.mp hb)
      exact hne (by rw [escapeCsv, if_neg hb])
    · intro hx
      have hb : f.any sourceSpecialChar = true := hiff.mpr hx
      rw [escapeCsv, if_pos hb]
      intro heq
      have hlen : ('"' :: doubleQuotes f ++ ['"']).length = f.length :=
        congrArg List.length heq
      have hge : f.length ≤ (doubleQuotes f).length := doubleQuotes_length_ge f
      simp [List.length_append] at hlen
      omega

theorem parseUnquoted_append (f : List Char) :
    ∀ rest : List Char, (∀ c ∈ f, ¬(c = ';' ∨ c = '\n')) →
    (rest = [] ∨ (∃ t, rest = ';' :: t) ∨ (∃ t, rest = '\n' :: t)) →
    parseUnquoted (f ++ rest) = (f, rest) := by
  induction f with
  | nil =>
    intro rest hf hstop
    rcases hstop with h | ⟨t, h⟩ | ⟨t, h⟩ <;> subst h <;> simp [parseUnquoted]
  | cons c cs ih =>
    intro rest hf hstop
    have hc : ¬(c = ';' ∨ c = '\n') := hf c (List.mem_cons_self c cs)
    have hrec := ih rest (fun x hx => hf x (List.mem_cons_of_mem c hx)) hstop
    simp [parseUnquoted, hc, hrec]

theorem parseQuotedBody_double (f : List Char) :
    ∀ rest : List Char,
    (rest = [] ∨ (∃ t, rest = ';' :: t) ∨ (∃ t, rest = '\n' :: t)) →
    parseQuotedBody (doubleQuotes f ++ '"' :: rest) = (f, rest) := by
  induction f with
  | nil =>
    intro rest hstop
    rcases hstop with h | ⟨t, h⟩ | ⟨t, h⟩ <;> subst h <;>
      simp [doubleQuotes, parseQuotedBody]
  | cons c cs ih =>
    intro rest hstop
    have hrec := ih rest hstop
    by_cases hc : c = '"'
    · subst hc
      simp [doubleQuotes, parseQuotedBody, hrec]
    · have hd : doubleQuotes (c :: cs) = c :: doubleQuotes cs := by
        simp [doubleQuotes, hc]
      rw [hd, List.cons_append, parseQuotedBody.eq_def]
      simp [hc, hrec]

theorem parseField_escape (f : List Char) (rest : List Char)
    (hstop : rest = [] ∨ (∃ t, rest = ';' :: t) ∨ (∃ t, rest = '\n' :: t)) :
    parseField (escapeCsv f ++ rest) = (f, rest) := by
  by_cases hb : f.any sourceSpecialChar
  · rw [escapeCsv, if_pos hb]
    have hsplit : ('"' :: doubleQuotes f ++ ['"']) ++ rest
        = '"' :: (doubleQuotes f ++ '"' :: rest) := by simp
    rw [hsplit]
    have hfield : parseField ('"' :: (doubleQuotes f ++ '"' :: rest))
        = parseQuotedBody (doubleQuotes f ++ '"' :: rest) := by
      simp [parseField]
    rw [hfield, parseQuotedBody_double f rest hstop]
  · have hf : ∀ c ∈ f, ¬(c = ';' ∨ c = '\n') := by
      intro c hc hor
      apply hb
      refine List.any_eq_true.mpr ⟨c, hc, ?_⟩
      rcases hor with h | h <;> simp [sourceSpecialChar, h]
    have hnq : ∀ c ∈ f, ¬(c = '"') := by
      intro c hc h
      apply hb
      exact List.any_eq_true.mpr ⟨c, hc, by simp [sourceSpecialChar, h]⟩
    rw [escapeCsv, if_neg hb]
    cases f with
    | nil =>
      rcases hstop with h | ⟨t, h⟩ | ⟨t, h⟩ <;> subst h <;>
        simp [parseField, parseUnquoted]
    | cons c cs =>
      have hcq : ¬(c = '"') := hnq c (List.mem_cons_self c cs)
      have hfield : parseField ((c :: cs) ++ rest) = parseUnquoted ((c :: cs) ++ rest) := by
        simp [parseField, hcq]
      rw [hfield]
      exact parseUnquoted_append (c :: cs) rest hf hstop

theorem parseRows_renderRow_newline (cells : List (List Char)) :
    cells ≠ [] → ∀ t : List Char,
    parseRows (renderRow cells ++ '\n' :: t) = cells :: parseRows t := by
  induction cells with
  | nil => intro h; exact absurd rfl h
  | cons f fs ih =>
    intro _ t
    cases fs with
    | nil =>
      have hrr : renderRow [f] = escapeCsv f := by simp [renderRow, joinSep]
      have hp := parseField_escape f ('\n' :: t) (Or.inr (Or.inr ⟨t, rfl⟩))
      rw [hrr, parseRows.eq_def, hp]
      simp
    | cons g gs =>
      have hrr : renderRow (f :: g :: gs)
          = escapeCsv f ++ ';' :: renderRow (g :: gs) := by
        simp [renderRow, joinSep]
      have hassoc : (escapeCsv f ++ ';' :: renderRow (g :: gs)) ++ '\n' :: t
          = escapeCsv f ++ ';' :: (renderRow (g :: gs) ++ '\n' :: t) := by simp
      have hp := parseField_escape f (';' :: (renderRow (g :: gs) ++ '\n' :: t))
        (Or.inr (Or.inl ⟨_, rfl⟩))
      rw [hrr, hassoc, parseRows.eq_def, hp]
      simp only []
      rw [ih (by simp) t]

theorem parseRows_renderRow_end (cells : List (List Char)) :
    cells ≠ [] → parseRows (renderRow cells) = [cells] := by
  induction cells with
  | nil => intro h; exact absurd rfl h
  | cons f fs ih =>
    intro _
    cases fs with
    | nil =>
      have hrr : renderRow [f] = escapeCsv f := by simp [renderRow, joinSep]
      have hp : parseField (renderRow [f]) = (f, []) := by
        rw [hrr]
        simpa using parseField_escape f [] (Or.inl rfl)
      rw [parseRows.eq_def, hp]
    | cons g gs =>
      have hrr : renderRow (f :: g :: gs)
          = escapeCsv f ++ ';' :: renderRow (g :: gs) := by
        simp [renderRow, joinSep]
      have hp := parseField_escape f (';' :: renderRow (g :: gs))
        (Or.inr (Or.inl ⟨_, rfl⟩))
      rw [hrr, parseRows.eq_def, hp]
      simp only []
      rw [ih (by simp)]

theorem parseRows_renderCsv (rows : List (List (List Char))) :
    rows ≠ [] → (∀ r ∈ rows, r ≠ []) → parseRows (renderCsv rows) = rows := by
  induction rows with
  | nil => intro h _; exact absurd rfl h
  | cons r rs ih =>
    intro _ hall
    cases rs with
    | nil =>
      have hrc : renderCsv [r] = renderRow r := by simp [renderCsv, joinSep]
      rw [hrc, parseRows_renderRow_end r (hall r (List.mem_cons_self r []))]
    | cons r2 rs2 =>
      have hrc : renderCsv (r :: r2 :: rs2)
          = renderRow r ++ '\n' :: renderCsv (r2 :: rs2) := by
        simp [renderCsv, joinSep]
      rw [hrc, parseRows_renderRow_newline r (hall r (List.mem_cons_self r _)) _]
      rw [ih (by simp) (fun x hx => hall x (List.mem_cons_of_mem r hx))]

/-- C4: the delimited-text export round-trips: parsing the produced document
with the standard reader for this dialect (semicolon delimiter, double-quote
quoting with doubled internal quotes) reproduces exactly the written grid of
cell values, the header row followed by the original row tuples, whatever
characters the cells contain. -/
theorem csv_roundtrip (rows : List ReportRow) :
    parseRows (csvDocument rows) = csvGrid rows := by
  unfold csvDocument
  apply parseRows_renderCsv
  · simp [csvGrid]
  · intro r hr
    simp only [csvGrid, List.mem_cons, List.mem_map] at hr
    rcases hr with h | ⟨x, hx, h⟩
    · subst h; simp [csvHeaderCells]
    · subst h; simp [reportRowCells]
